import Mathlib

/-!
# Verification of the ethereum-transfer-indexer core against its specification

Shallow embedding of the Go sources of the indexer:

* `internal/service/ingestion.go` — adaptive batch sizing of the scanner;
* `internal/stream` — the non-blocking fan-out event bus with replay buffer;
* `internal/ethereum/provider.go` — per-endpoint circuit breaker;
* `internal/ethereum/client.go` — the provider pool with failover;
* `internal/ethereum/parser.go` — the ERC-20 Transfer log parser;
* `internal/cache` (Redis) and `internal/repository` (MongoDB) — the
  write-through cursor store and the idempotent record store.

Machine integers (`uint64`) are modelled as `Nat` with an explicit
`% 2 ^ 64` at the operations where overflow is possible.  Wall-clock time,
locking and goroutine interleavings are abstracted: each exported Go method
becomes a pure state-transformer on an explicit state record.
-/

/-- `2^64`, the modulus of Go's `uint64` arithmetic. -/
def U64 : Nat := 2 ^ 64

/-! ## Adaptive batch sizing (`internal/service/ingestion.go`)

The scanner keeps `currentBatchSize`, `successCount`, `failureCount`
(fields of `IngestionService`) and the static configuration received by
`NewIngestionService`.  We model only the adaptive-sizing state; the
fields below mirror the Go struct fields of the same names. -/

/-- Static adaptive-batch configuration of `IngestionService`
(`blockBatchSize`, `batchMinSize`, `batchMaxSize`, `batchSuccessStreak`,
`batchFailureBackoff` in `ingestion.go`).  `batchFailureBackoff` is a Go
`int`; the embedding assumes it non-negative (theorems additionally
require it positive, since `adjustBatchSizeOnFailure` divides by it and
Go panics on division by zero). -/
structure BatchConfig where
  blockBatchSize : Nat
  batchMinSize : Nat
  batchMaxSize : Nat
  batchSuccessStreak : Nat
  batchFailureBackoff : Nat
deriving DecidableEq, Repr

/-- Mutable adaptive-sizing state of `IngestionService`. -/
structure BatchState where
  currentBatchSize : Nat
  successCount : Nat
  failureCount : Nat
deriving DecidableEq, Repr

/-- `NewIngestionService` (ingestion.go:59-83): `currentSize :=
blockBatchSize; if currentSize == 0 { currentSize = 10 }`.  The initial
size is *not* clamped to `[batchMinSize, batchMaxSize]`. -/
def initBatchState (cfg : BatchConfig) : BatchState :=
  { currentBatchSize := if cfg.blockBatchSize = 0 then 10 else cfg.blockBatchSize
    successCount := 0
    failureCount := 0 }

/-- The batch size a tick actually uses (`processBlocks`,
ingestion.go:149-157): `batchSize := currentBatchSize; if 0 then
blockBatchSize; if still 0 then 10`. -/
def tickBatchSize (cfg : BatchConfig) (st : BatchState) : Nat :=
  if st.currentBatchSize ≠ 0 then st.currentBatchSize
  else if cfg.blockBatchSize ≠ 0 then cfg.blockBatchSize
  else 10

/-- `adjustBatchSizeOnSuccess` (ingestion.go:228-247).  Increments
`successCount`, zeroes `failureCount`; once the streak is reached the
size is doubled (`uint64` multiplication, hence the `% 2^64`) and capped
at `batchMaxSize`; the success counter is reset *only when the size
actually changed* (`if newSize != s.currentBatchSize`). -/
def adjustBatchSizeOnSuccess (cfg : BatchConfig) (st : BatchState) : BatchState :=
  let sc := st.successCount + 1
  if sc ≥ cfg.batchSuccessStreak then
    let doubled := st.currentBatchSize * 2 % U64
    let newSize := if doubled > cfg.batchMaxSize then cfg.batchMaxSize else doubled
    if newSize ≠ st.currentBatchSize then
      { currentBatchSize := newSize, successCount := 0, failureCount := 0 }
    else
      { currentBatchSize := st.currentBatchSize, successCount := sc, failureCount := 0 }
  else
    { currentBatchSize := st.currentBatchSize, successCount := sc, failureCount := 0 }

/-- `adjustBatchSizeOnFailure` (ingestion.go:251-268).  Increments
`failureCount`, zeroes `successCount`; halves the size by
`batchFailureBackoff` (Go integer division; Go panics when the divisor is
zero, so theorems assume it positive) and floors at `batchMinSize`; the
failure counter is reset only when the size actually changed. -/
def adjustBatchSizeOnFailure (cfg : BatchConfig) (st : BatchState) : BatchState :=
  let fc := st.failureCount + 1
  let divided := st.currentBatchSize / cfg.batchFailureBackoff
  let newSize := if divided < cfg.batchMinSize then cfg.batchMinSize else divided
  if newSize ≠ st.currentBatchSize then
    { currentBatchSize := newSize, successCount := 0, failureCount := 0 }
  else
    { currentBatchSize := st.currentBatchSize, successCount := 0, failureCount := fc }

/-- Outcome of one scanner tick, as seen by the adaptive policy
(`processBlocks` calls `adjustBatchSizeOnSuccess` on a fully successful
tick and `adjustBatchSizeOnFailure` on fetch/insert failure, when
`adaptiveBatch` is enabled). -/
inductive TickOutcome
  | success
  | failure
deriving DecidableEq, Repr

/-- One adaptive adjustment step (adaptive mode enabled). -/
def batchStep (cfg : BatchConfig) (st : BatchState) : TickOutcome → BatchState
  | .success => adjustBatchSizeOnSuccess cfg st
  | .failure => adjustBatchSizeOnFailure cfg st

/-- The adaptive state after a sequence of tick outcomes. -/
def runTicks (cfg : BatchConfig) (st : BatchState) (evs : List TickOutcome) : BatchState :=
  evs.foldl (batchStep cfg) st

/-! ## Log parser (`internal/ethereum/parser.go`)

Byte strings are `List Nat` with every element `< 256`.  `common.Hash`
values are 32-byte lists, `common.Address` values 20-byte lists.
`time.Time` instants are abstract `Nat` timestamps.  The Go code stores
the parsed amount three ways, two of them lossy, and both roundings are
modelled:

* `Value` is `primitive.ParseDecimal128(value.String())`: IEEE 754-2008
  decimal128 keeps 34 significant decimal digits, rounding ties to even
  (`parseDecimal128Nat` below);
* `ValueString` is the exact decimal string;
* `ValueDecimal` is `parseValueDecimal(value)` (parser.go:72-77), the
  `float64` of `value / 10^18`: IEEE-754 binary64 round-to-nearest-even
  of the quotient (`round64` below). -/

/-- The canonical Transfer record (`internal/models`, part of
`models.Transfer`).  `from`/`to` are renamed `fromAddr`/`toAddr`
(`from` is a Lean keyword).  `value` holds the numeric value of the
stored `primitive.Decimal128`, `valueDecimal` the rational value of the
stored `float64`.  The `CreatedAt := time.Now()` field is the ingestion
wall clock and is not modelled. -/
structure Transfer where
  eventSignature : String
  token : String
  fromAddr : String
  toAddr : String
  value : Nat
  valueString : String
  valueDecimal : Rat
  blockNumber : Nat
  txHash : String
  txIndex : Nat
  logIndex : Nat
  timestamp : Nat
deriving DecidableEq, Repr

/-- One subscriber channel (`chan []byte` of capacity `bufferSize`). -/
structure ClientChan where
  capacity : Nat
  queued : List Transfer
deriving DecidableEq, Repr

/-- The `Stream` struct (stream.go:15-21): subscriber set, replay buffer,
configured buffer size. -/
structure EventStream where
  clients : List ClientChan
  buffer : List Transfer
  bufferSize : Nat
deriving DecidableEq, Repr

/-- `NewStream` (stream.go:24-31). -/
def newStream (bufferSize : Nat) : EventStream :=
  { clients := [], buffer := [], bufferSize := bufferSize }

/-- The non-blocking `select { case ch <- data: default: }` of
`Publish` (stream.go:67-75): enqueue when the channel has room,
otherwise drop the record for that client. -/
def sendNonBlocking (c : ClientChan) (t : Transfer) : ClientChan :=
  if c.queued.length < c.capacity then { c with queued := c.queued ++ [t] } else c

/-- `Stream.Publish` (stream.go:36-76).  With no clients the record is
appended to the replay buffer *only while the buffer is shorter than
`bufferSize`* (`if len(s.buffer) < s.bufferSize`); a full buffer drops
the newly published record.  With clients present the buffer is left
untouched and the record is offered non-blockingly to every client. -/
def publish (s : EventStream) (t : Transfer) : EventStream :=
  if s.clients.isEmpty then
    if s.buffer.length < s.bufferSize then { s with buffer := s.buffer ++ [t] } else s
  else
    { s with clients := s.clients.map (fun c => sendNonBlocking c t) }

/-- Publishing a list of records in order. -/
def publishAll (s : EventStream) (ts : List Transfer) : EventStream :=
  ts.foldl publish s

/-- `Stream.Subscribe` (stream.go:80-117).  Returns the records replayed
to the new subscriber and the stream with the new client registered.
The replay goroutine copies the buffer and sends each record into the
fresh channel; the channel's capacity is `bufferSize` and (when
`buffer.length ≤ bufferSize`) every send succeeds without hitting the
1-second per-delivery timeout, so the subscriber receives exactly the
buffered records in buffer order. -/
def subscribe (s : EventStream) : List Transfer × EventStream :=
  (s.buffer, { s with clients := s.clients ++ [{ capacity := s.bufferSize, queued := s.buffer }] })

/-- A concrete transfer record used by counterexamples and witnesses;
records with different `n` differ. -/
def mkTransfer (n : Nat) : Transfer :=
  { eventSignature := "Transfer"
    token := "0x0000000000000000000000000000000000000000"
    fromAddr := "0x0000000000000000000000000000000000000001"
    toAddr := "0x0000000000000000000000000000000000000002"
    value := n
    valueString := toString n
    valueDecimal := (n : Rat) / 10 ^ 18
    blockNumber := n
    txHash := "0x00"
    txIndex := 0
    logIndex := n
    timestamp := 0 }

/-! ## Provider circuit breaker (`internal/ethereum/provider.go`)

The `Provider` struct: static identity/config plus breaker state.  The
Go state names are `StateHealthy`, `StateUnhealthy`, `StateHalfOpen`
(the spec calls half-open "Probing").  `lastFailureTime`/`lastSuccessTime`
are wall-clock; the only use the modelled code makes of them is the test
`time.Since(p.lastFailureTime) > p.timeout` inside `IsHealthy`, which is
abstracted as the boolean `probeElapsed`.  `RecordFailure` sets
`lastFailureTime = time.Now()`, so it sets `probeElapsed := false`. -/

/-- `ProviderState` (provider.go:14-20). -/
inductive ProviderState
  | healthy
  | unhealthy
  | halfOpen
deriving DecidableEq, Repr

/-- The `Provider` struct (provider.go:23-46), restricted to the fields
the breaker and the pool read.  `url`, the network client and the metric
counters are omitted. -/
structure Provider where
  name : String
  weight : Int
  maxRange : Nat
  state : ProviderState
  failureCount : Nat
  successCount : Nat
  halfOpenCalls : Nat
  failureThreshold : Nat
  successThreshold : Nat
  probeElapsed : Bool
deriving DecidableEq, Repr

/-- `Provider.RecordSuccess` (provider.go:101-124): bump the success
streak, clear the failure streak; in half-open, count the call and go
healthy once the streak reaches `successThreshold` (clearing the
half-open and success counters); a success while unhealthy moves to
half-open. -/
def recordSuccess (p : Provider) : Provider :=
  let p := { p with successCount := p.successCount + 1, failureCount := 0 }
  if p.state = .halfOpen then
    let p := { p with halfOpenCalls := p.halfOpenCalls + 1 }
    if p.successCount ≥ p.successThreshold then
      { p with state := .healthy, halfOpenCalls := 0, successCount := 0 }
    else p
  else if p.state = .unhealthy then
    { p with state := .halfOpen }
  else p

/-- `Provider.RecordFailure` (provider.go:127-152): bump the failure
streak, clear the success streak, stamp the failure time
(`probeElapsed := false`); any failure in half-open goes straight to
unhealthy (clearing only `halfOpenCalls`); otherwise trip to unhealthy
once the failure streak reaches `failureThreshold`. -/
def recordFailure (p : Provider) : Provider :=
  let p := { p with failureCount := p.failureCount + 1, successCount := 0,
                    probeElapsed := false }
  if p.state = .halfOpen then
    { p with state := .unhealthy, halfOpenCalls := 0 }
  else if p.failureCount ≥ p.failureThreshold then
    { p with state := .unhealthy }
  else p

/-- `Provider.IsHealthy` (provider.go:71-98).  Returns the (possibly
updated) provider and the selectability verdict: healthy and half-open
are selectable; an unhealthy provider whose probe timeout has elapsed
moves to half-open (resetting `halfOpenCalls`) and becomes
selectable. -/
def isHealthyStep (p : Provider) : Provider × Bool :=
  match p.state with
  | .healthy => (p, true)
  | .unhealthy =>
      if p.probeElapsed then
        ({ p with state := .halfOpen, halfOpenCalls := 0 }, true)
      else (p, false)
  | .halfOpen => (p, true)

/-! ## Provider pool (`internal/ethereum/client.go`, `ProviderPool`)

`GetHealthyProviders` iterates the providers calling `IsHealthy` (which
may mutate them through the shared pointer) and collects the selectable
ones; the model returns the updated provider list together with the
selectable providers paired with their positions. -/

/-- The `ProviderPool` struct (client.go:123-127). -/
structure ProviderPool where
  providers : List Provider
  current : Nat
deriving DecidableEq, Repr

/-- `NewProviderPool` (client.go:131-143): sort by descending weight,
round-robin cursor at 0.  (`sort.Slice` is an unstable sort; among
distinct weights the result is the descending order produced here.) -/
def newProviderPool (ps : List Provider) : ProviderPool :=
  { providers := ps.mergeSort (fun a b => decide (b.weight ≤ a.weight)), current := 0 }

/-- `GetHealthyProviders` (client.go:147-158), with the `IsHealthy`
side effects applied: the updated provider list and the selectable
`(index, provider)` pairs. -/
def getHealthyProviders (ps : List Provider) :
    List Provider × List (Nat × Provider) :=
  let stepped := ps.map isHealthyStep
  (stepped.map (·.fst),
   (stepped.enum.filter (fun x => x.snd.snd)).map (fun x => (x.fst, x.snd.fst)))

/-- Result of `SelectProvider`: a provider (returned by value together
with its index in the pool's provider list), either cleanly or as the
all-unhealthy "last resort" accompanied by a non-nil error, or nothing
when the pool is empty. -/
inductive Selected
  | ok (i : Nat) (p : Provider)
  | lastResort (i : Nat) (p : Provider)
  | noneAvailable
deriving DecidableEq, Repr

/-- Fallback value for the (unreachable, since the index is always in
range) `List.getD` default in `selectProvider`. -/
def dummyProvider : Provider :=
  { name := "", weight := 0, maxRange := 0, state := .healthy,
    failureCount := 0, successCount := 0, halfOpenCalls := 0,
    failureThreshold := 0, successThreshold := 0, probeElapsed := false }

/-- `SelectProvider` (client.go:162-180): round-robin over the
selectable providers (`healthy[p.current % len(healthy)]`, then
`p.current++`); with none selectable, return `p.providers[0]` (the
highest-weight provider) *together with a non-nil error* — the Go
callers treat any non-nil error as fatal. -/
def selectProvider (pool : ProviderPool) : ProviderPool × Selected :=
  let res := getHealthyProviders pool.providers
  match res.snd with
  | [] =>
      match res.fst with
      | [] => ({ providers := res.fst, current := pool.current }, .noneAvailable)
      | q :: _ => ({ providers := res.fst, current := pool.current }, .lastResort 0 q)
  | _ :: _ =>
      let sel := res.snd.getD (pool.current % res.snd.length) (0, dummyProvider)
      ({ providers := res.fst, current := pool.current + 1 }, .ok sel.fst sel.snd)

/-- The distinct pool-level failures of `FilterLogs`
(client.go:184-244): `noHealthy` is the early return when
`SelectProvider` yields a non-nil error, `allFailed` the exhaustion of
`maxAttempts`, `cancelled` the caller-context cancellation check after a
failed call. -/
inductive PoolErr
  | noHealthy
  | allFailed
  | cancelled
deriving DecidableEq, Repr

/-- Result of a pool `FilterLogs` call: the outcome (on success the logs
together with the index and value of the provider that served them), the
pool state afterwards, and — as instrumentation for the proofs — the
list of providers whose RPC client was actually invoked, in invocation
order. -/
structure FilterLogsResult where
  result : Except PoolErr (List Nat × Nat × Provider)
  pool : ProviderPool
  invoked : List (Nat × Provider)
deriving Repr

/-- The `for attempt := 0; attempt < maxAttempts; attempt++` body of
`ProviderPool.FilterLogs` (client.go:193-241).  `rpc i` is the outcome
of `provider.GetClient().FilterLogs` for the provider at index `i`
(`none` = error; the environment is held fixed across retries);
`cancelled` abstracts `ctx.Err() != nil`.  Faithful order of checks:
non-nil `SelectProvider` error returns immediately (the last-resort
provider is discarded *without being invoked*); then the max-range
skip (recording the name as attempted); then the first-pass
already-attempted skip; then the invocation with `RecordSuccess` /
`RecordFailure` written back at the provider's index. -/
def filterLogsAux (rpc : Nat → Option (List Nat)) (blockRange : Nat)
    (nProviders : Nat) (cancelled : Bool) :
    Nat → Nat → ProviderPool → List String → List (Nat × Provider) → FilterLogsResult
  | 0, _, pool, _, inv => ⟨.error .allFailed, pool, inv⟩
  | fuel + 1, attempt, pool, att, inv =>
    match selectProvider pool with
    | (pool1, .noneAvailable) => ⟨.error .noHealthy, pool1, inv⟩
    | (pool1, .lastResort _ _) => ⟨.error .noHealthy, pool1, inv⟩
    | (pool1, .ok i p) =>
      if blockRange > p.maxRange then
        filterLogsAux rpc blockRange nProviders cancelled fuel (attempt + 1)
          pool1 (att ++ [p.name]) inv
      else if att.contains p.name && decide (attempt < nProviders) then
        filterLogsAux rpc blockRange nProviders cancelled fuel (attempt + 1)
          pool1 att inv
      else
        match rpc i with
        | some logs =>
            ⟨.ok (logs, i, p),
             { pool1 with providers := pool1.providers.set i (recordSuccess p) },
             inv ++ [(i, p)]⟩
        | none =>
            let pool2 := { pool1 with providers := pool1.providers.set i (recordFailure p) }
            if cancelled then ⟨.error .cancelled, pool2, inv ++ [(i, p)]⟩
            else
              filterLogsAux rpc blockRange nProviders cancelled fuel (attempt + 1)
                pool2 (att ++ [p.name]) (inv ++ [(i, p)])

/-- `blockRange := query.ToBlock.Uint64() - query.FromBlock.Uint64() + 1`
(client.go:186) in `uint64` arithmetic. -/
def blockSpan (fromBlock toBlock : Nat) : Nat :=
  ((toBlock + U64 - fromBlock) % U64 + 1) % U64

/-- `ProviderPool.FilterLogs` (client.go:184-244): compute the span,
then run up to `2 * len(providers)` attempts. -/
def poolFilterLogs (rpc : Nat → Option (List Nat)) (cancelled : Bool)
    (pool : ProviderPool) (fromBlock toBlock : Nat) : FilterLogsResult :=
  filterLogsAux rpc (blockSpan fromBlock toBlock) pool.providers.length cancelled
    (2 * pool.providers.length) 0 pool [] []

/-! ## Cursor store (`internal/cache` Redis + `internal/repository` Mongo)

The Redis connection is modelled as `disabled` (the `enabled == false`
no-op cache, or a nil `repo.cache`), `down` (server unreachable: every
command errors), or `up k` with `k` the current value of the
`ethereum:last_block` key (`none` when the key is absent).  The
`processed_blocks` collection is the list of `block_number` values
present (unique-indexed). -/

/-- State of the Redis cache as seen by `RedisCache`. -/
inductive CacheState
  | disabled
  | down (key : Option Nat)
  | up (key : Option Nat)
deriving DecidableEq, Repr

/-- `RedisCache.GetLastProcessedBlock` (cache part_006:77-97).  Disabled
cache and unreachable server return errors; an *absent key*
(`redis.Nil`) is converted to a successful `(0, nil)`; a present key
parses and returns its value.  (The stored value is always
`strconv.FormatUint` output, so the parse step cannot fail.) -/
def redisGetLastBlock (c : CacheState) : Except Unit Nat :=
  match c with
  | .disabled => .error ()
  | .down _ => .error ()
  | .up none => .ok 0
  | .up (some v) => .ok v

/-- `RedisCache.SetLastProcessedBlock` (cache part_006:101-112): the new
cache state and whether the command succeeded. -/
def redisSetLastBlock (c : CacheState) (n : Nat) : CacheState × Except Unit Unit :=
  match c with
  | .disabled => (.disabled, .error ())
  | .down k => (.down k, .error ())
  | .up _ => (.up (some n), .ok ())

/-- `FindOne` on `processed_blocks` sorted by `block_number`
descending, with `ErrNoDocuments ↦ 0`
(`MongoRepository.GetLastProcessedBlock`, part_007:186-193). -/
def mongoMaxBlock (docs : List Nat) : Nat :=
  docs.foldr max 0

/-- The upsert `UpdateOne({block_number: n}, $set..., upsert: true)` on
`processed_blocks` (part_007:212-221). -/
def mongoUpsertBlock (docs : List Nat) (n : Nat) : List Nat :=
  if docs.contains n then docs else n :: docs

/-- `MongoRepository.GetLastProcessedBlock` (part_007:173-205): any
successful cache reply — including the masked absent-key `(0, nil)` —
is returned as a hit; only a cache *error* falls through to MongoDB.
The asynchronous fire-and-forget cache warm-up after a MongoDB read
only touches the cache, not the returned value, and is omitted. -/
def repoGetLastProcessedBlock (c : CacheState) (docs : List Nat) : Nat :=
  match redisGetLastBlock c with
  | .ok v => v
  | .error _ => mongoMaxBlock docs

/-- `MongoRepository.SetLastProcessedBlock` (part_007:210-234): durable
upsert first, then a best-effort cache write whose failure is ignored.
The MongoDB write is modelled as succeeding (the claims only concern
executions where `SetLastProcessedBlock` returned success). -/
def repoSetLastProcessedBlock (c : CacheState) (docs : List Nat) (n : Nat) :
    CacheState × List Nat :=
  let docs2 := mongoUpsertBlock docs n
  ((redisSetLastBlock c n).fst, docs2)

/-! ## Record store (`MongoRepository.InsertTransfers`, part_007:132-168)

The `transfers` collection carries a unique index on
`(tx_hash, log_index)` (`createIndexes`, part_007:102-109).  An
unordered `BulkWrite` of `InsertOneModel`s attempts every document even
after failures; a document whose key already exists (in the collection
or inserted earlier in the same batch) fails with a duplicate-key write
error, and other per-document write failures are abstracted by the
environment oracle `failOracle`.  The driver's
`mongo.IsDuplicateKeyError` holds for a `BulkWriteException` as soon as
*any* contained write error has the duplicate-key code. -/

/-- Per-document outcome inside the unordered bulk write. -/
inductive WriteOutcome
  | inserted
  | dupKey
  | otherErr
deriving DecidableEq, Repr

/-- `true` for the duplicate-key outcome. -/
def WriteOutcome.isDup : WriteOutcome → Bool
  | .dupKey => true
  | _ => false

/-- `true` for any failed outcome. -/
def WriteOutcome.isErr : WriteOutcome → Bool
  | .inserted => false
  | _ => true

/-- The `(tx_hash, log_index)` key of a record, the unique index. -/
def transferKey (t : Transfer) : String × Nat :=
  (t.txHash, t.logIndex)

/-- Unordered `BulkWrite` of insert-one models against the unique
`(tx_hash, log_index)` index: the resulting collection and the
per-document outcomes.  `failOracle r = true` makes the insertion of a
fresh `r` fail with a non-duplicate write error. -/
def bulkWriteUnordered (failOracle : Transfer → Bool) :
    List Transfer → List Transfer → List Transfer × List WriteOutcome
  | db, [] => (db, [])
  | db, r :: rs =>
    if (db.map transferKey).contains (transferKey r) then
      let rec2 := bulkWriteUnordered failOracle db rs
      (rec2.fst, .dupKey :: rec2.snd)
    else if failOracle r then
      let rec2 := bulkWriteUnordered failOracle db rs
      (rec2.fst, .otherErr :: rec2.snd)
    else
      let rec2 := bulkWriteUnordered failOracle (db ++ [r]) rs
      (rec2.fst, .inserted :: rec2.snd)

/-- `MongoRepository.InsertTransfers` (part_007:132-168): empty batches
succeed immediately; otherwise run the unordered bulk write; a bulk
error for which `mongo.IsDuplicateKeyError` holds (some outcome is
`dupKey`) is absorbed (`return nil`), any other bulk error propagates.
Returns the collection afterwards and whether the call returned
without error. -/
def insertTransfers (failOracle : Transfer → Bool) (db : List Transfer)
    (ts : List Transfer) : List Transfer × Bool :=
  if ts.isEmpty then (db, true)
  else
    let bw := bulkWriteUnordered failOracle db ts
    if bw.snd.any WriteOutcome.isErr then
      if bw.snd.any WriteOutcome.isDup then (bw.fst, true)
      else (bw.fst, false)
    else (bw.fst, true)

/-! ## Concrete instances used by counterexamples and witnesses -/

/-- A healthy provider (`failure_threshold 3`, `success_threshold 2`). -/
def providerA : Provider :=
  { name := "alchemy", weight := 10, maxRange := 1000, state := .healthy,
    failureCount := 0, successCount := 0, halfOpenCalls := 0,
    failureThreshold := 3, successThreshold := 2, probeElapsed := false }

/-- An unhealthy provider whose probe timeout has not elapsed. -/
def providerU : Provider :=
  { providerA with name := "infura", weight := 5, state := .unhealthy, failureCount := 5 }

/-- A provider in the half-open (probing) state, reached after its
failure streak tripped the breaker. -/
def probeProvider : Provider :=
  { providerA with state := .halfOpen, failureCount := 5 }

/-- A pool holding only the healthy provider. -/
def poolA : ProviderPool := { providers := [providerA], current := 0 }

/-- A pool in which every provider is unhealthy. -/
def poolU : ProviderPool := { providers := [providerU], current := 0 }

/-- An RPC environment in which every call returns the log list `[7]`. -/
def rpcOK : Nat → Option (List Nat) := fun _ => some [7]

/-- A stream with one subscribed client whose channel can take nothing
more. -/
def fullStream : EventStream :=
  { clients := [{ capacity := 0, queued := [] }], buffer := [], bufferSize := 4 }

/-- A per-record write-error environment that fails exactly the record
with `blockNumber = 2` (a non-duplicate write error, e.g. a document
validation failure, on that one insert). -/
def failOnBlock2 : Transfer → Bool := fun r => r.blockNumber == 2

/-! ## Theorems -/

/-- One adaptive adjustment keeps the batch size inside
`[batchMinSize, batchMaxSize]` once it is there (divisor positive, no
`uint64` overflow of the doubling). -/
theorem batchStep_bounds (cfg : BatchConfig) (st : BatchState)
    (hmin : 1 ≤ cfg.batchMinSize) (hdiv : 1 ≤ cfg.batchFailureBackoff)
    (hmax : cfg.batchMaxSize < 2 ^ 63)
    (h1 : cfg.batchMinSize ≤ st.currentBatchSize)
    (h2 : st.currentBatchSize ≤ cfg.batchMaxSize) (ev : TickOutcome) :
    cfg.batchMinSize ≤ (batchStep cfg st ev).currentBatchSize ∧
      (batchStep cfg st ev).currentBatchSize ≤ cfg.batchMaxSize := by
  have hdb : st.currentBatchSize * 2 % U64 = st.currentBatchSize * 2 := by
    apply Nat.mod_eq_of_lt
    have : st.currentBatchSize * 2 < 2 ^ 63 * 2 := by omega
    calc st.currentBatchSize * 2 < 2 ^ 63 * 2 := this
    _ ≤ U64 := by norm_num [U64]
  have hds : st.currentBatchSize / cfg.batchFailureBackoff ≤ st.currentBatchSize :=
    Nat.div_le_self _ _
  cases ev with
  | success =>
      simp only [batchStep, adjustBatchSizeOnSuccess, hdb]
      split_ifs <;> simp_all <;> omega
  | failure =>
      simp only [batchStep, adjustBatchSizeOnFailure]
      split_ifs <;> simp_all <;> omega

/-- The bounds invariant holds along every tick trace. -/
theorem runTicks_bounds (cfg : BatchConfig)
    (hmin : 1 ≤ cfg.batchMinSize) (hdiv : 1 ≤ cfg.batchFailureBackoff)
    (hmax : cfg.batchMaxSize < 2 ^ 63) (evs : List TickOutcome) :
    ∀ st : BatchState, cfg.batchMinSize ≤ st.currentBatchSize →
      st.currentBatchSize ≤ cfg.batchMaxSize →
      cfg.batchMinSize ≤ (runTicks cfg st evs).currentBatchSize ∧
        (runTicks cfg st evs).currentBatchSize ≤ cfg.batchMaxSize := by
  induction evs with
  | nil => intro st h1 h2; exact ⟨h1, h2⟩
  | cons e es ih =>
      intro st h1 h2
      have hstep := batchStep_bounds cfg st hmin hdiv hmax h1 h2 e
      exact ih (batchStep cfg st e) hstep.1 hstep.2

/-- C6 (counterexample): with adaptive batching enabled,
`minSize = 1`, `maxSize = 64` and a configured `blockBatchSize = 100`,
the very first tick uses batch size 100 — `NewIngestionService` stores
the configured size without clamping it into `[minSize, maxSize]`, so
the claimed invariant fails at the first tick. -/
theorem firstTickBatchSizeNotClamped :
    tickBatchSize ⟨100, 1, 64, 3, 2⟩ (initBatchState ⟨100, 1, 64, 3, 2⟩) = 100 ∧
      ¬ tickBatchSize ⟨100, 1, 64, 3, 2⟩ (initBatchState ⟨100, 1, 64, 3, 2⟩) ≤
          (⟨100, 1, 64, 3, 2⟩ : BatchConfig).batchMaxSize := by
  decide

/-- C6 (amended): with adaptive batching enabled, the first tick's batch
size is the configured `blockBatchSize` itself (10 when zero), *not*
clamped; provided that initial size already lies in
`[batchMinSize, batchMaxSize]` (and the configuration is sane:
`batchMinSize ≥ 1`, `batchFailureBackoff ≥ 1`, `batchMaxSize < 2^63`),
the batch size used by every tick, after any sequence of successful and
failed ticks, lies in `[batchMinSize, batchMaxSize]`. -/
theorem adaptiveBatchSizeBounds (cfg : BatchConfig) (evs : List TickOutcome)
    (hmin : 1 ≤ cfg.batchMinSize) (hdiv : 1 ≤ cfg.batchFailureBackoff)
    (hmax : cfg.batchMaxSize < 2 ^ 63)
    (hinit1 : cfg.batchMinSize ≤ (initBatchState cfg).currentBatchSize)
    (hinit2 : (initBatchState cfg).currentBatchSize ≤ cfg.batchMaxSize) :
    (initBatchState cfg).currentBatchSize = (if cfg.blockBatchSize = 0 then 10 else cfg.blockBatchSize) ∧
    cfg.batchMinSize ≤ tickBatchSize cfg (runTicks cfg (initBatchState cfg) evs) ∧
      tickBatchSize cfg (runTicks cfg (initBatchState cfg) evs) ≤ cfg.batchMaxSize := by
  have hrun := runTicks_bounds cfg hmin hdiv hmax evs (initBatchState cfg) hinit1 hinit2
  have hne : (runTicks cfg (initBatchState cfg) evs).currentBatchSize ≠ 0 := by omega
  refine ⟨rfl, ?_, ?_⟩ <;> simp [tickBatchSize, hne] <;> omega

/-- Witness for `adaptiveBatchSizeBounds` at the spec's scenario
configuration (initial 4, min 1, max 64) after one successful tick. -/
theorem adaptiveBatchSizeBounds_witness :
    (initBatchState ⟨4, 1, 64, 3, 2⟩).currentBatchSize =
        (if (4 : Nat) = 0 then 10 else 4) ∧
    1 ≤ tickBatchSize ⟨4, 1, 64, 3, 2⟩
        (runTicks ⟨4, 1, 64, 3, 2⟩ (initBatchState ⟨4, 1, 64, 3, 2⟩) [TickOutcome.success]) ∧
      tickBatchSize ⟨4, 1, 64, 3, 2⟩
        (runTicks ⟨4, 1, 64, 3, 2⟩ (initBatchState ⟨4, 1, 64, 3, 2⟩) [TickOutcome.success]) ≤ 64 :=
  adaptiveBatchSizeBounds ⟨4, 1, 64, 3, 2⟩ [TickOutcome.success]
    (by decide) (by decide) (by norm_num) (by decide) (by decide)

/-- C7 (counterexample): `adaptive=true, min=1, max=64, streak=3,
divisor=2`, initial size 64 (= max).  After three successful ticks the
success counter has reached the streak and the claimed adjustment event
occurs with `B` already at `maxSize`; the claim says the success counter
is reset to zero after every such adjustment, but the code only resets
it when the size actually changed (`if newSize != s.currentBatchSize`),
so the counter stays at 3. -/
theorem successCounterNotResetAtMax :
    runTicks ⟨64, 1, 64, 3, 2⟩ (initBatchState ⟨64, 1, 64, 3, 2⟩)
        [TickOutcome.success, TickOutcome.success, TickOutcome.success] =
      ⟨64, 3, 0⟩ ∧
    (runTicks ⟨64, 1, 64, 3, 2⟩ (initBatchState ⟨64, 1, 64, 3, 2⟩)
        [TickOutcome.success, TickOutcome.success, TickOutcome.success]).successCount ≠ 0 := by
  constructor
  · show runTicks _ _ _ = _
    decide
  · show (runTicks _ _ _).successCount ≠ 0
    decide

/-- C7 (amended): each successful tick increments the success counter
and resets the failure counter; once the success counter reaches
`successStreak` the batch size becomes `min(B * 2, maxSize)`, with the
success counter reset to zero *only when that changed the size* — when
`B` is already `maxSize` (no change) the counter keeps its incremented
value; each failed tick sets `B` to `max(⌊B / failureDivisor⌋, minSize)`.
In particular, with `min=1, max=64, successStreak=3, failureDivisor=2,
initial=4`: three successes give `B=8`, one failure gives `B=4`, three
more failures give `B=1`. -/
theorem adjustBatchSizePolicy :
    (∀ (cfg : BatchConfig) (st : BatchState),
        st.successCount + 1 < cfg.batchSuccessStreak →
        adjustBatchSizeOnSuccess cfg st =
          ⟨st.currentBatchSize, st.successCount + 1, 0⟩) ∧
    (∀ (cfg : BatchConfig) (st : BatchState),
        cfg.batchSuccessStreak ≤ st.successCount + 1 →
        st.currentBatchSize < 2 ^ 63 →
        adjustBatchSizeOnSuccess cfg st =
          if min (st.currentBatchSize * 2) cfg.batchMaxSize = st.currentBatchSize then
            ⟨st.currentBatchSize, st.successCount + 1, 0⟩
          else
            ⟨min (st.currentBatchSize * 2) cfg.batchMaxSize, 0, 0⟩) ∧
    (∀ (cfg : BatchConfig) (st : BatchState), 1 ≤ cfg.batchFailureBackoff →
        (adjustBatchSizeOnFailure cfg st).currentBatchSize =
          max (st.currentBatchSize / cfg.batchFailureBackoff) cfg.batchMinSize) ∧
    (runTicks ⟨4, 1, 64, 3, 2⟩ (initBatchState ⟨4, 1, 64, 3, 2⟩)
        [TickOutcome.success, TickOutcome.success, TickOutcome.success]).currentBatchSize = 8 ∧
    (runTicks ⟨4, 1, 64, 3, 2⟩ (initBatchState ⟨4, 1, 64, 3, 2⟩)
        [TickOutcome.success, TickOutcome.success, TickOutcome.success,
         TickOutcome.failure]).currentBatchSize = 4 ∧
    (runTicks ⟨4, 1, 64, 3, 2⟩ (initBatchState ⟨4, 1, 64, 3, 2⟩)
        [TickOutcome.success, TickOutcome.success, TickOutcome.success, TickOutcome.failure,
         TickOutcome.failure, TickOutcome.failure, TickOutcome.failure]).currentBatchSize = 1 := by
  refine ⟨?_, ?_, ?_, by decide, by decide, by decide⟩
  · intro cfg st h
    simp only [adjustBatchSizeOnSuccess]
    rw [if_neg (by omega)]
  · intro cfg st h hov
    have hdb : st.currentBatchSize * 2 % U64 = st.currentBatchSize * 2 := by
      apply Nat.mod_eq_of_lt
      have h2 : st.currentBatchSize * 2 < 2 ^ 63 * 2 := by omega
      calc st.currentBatchSize * 2 < 2 ^ 63 * 2 := h2
      _ ≤ U64 := by norm_num [U64]
    simp only [adjustBatchSizeOnSuccess, hdb]
    rw [if_pos (by omega)]
    have hm : (if st.currentBatchSize * 2 > cfg.batchMaxSize then cfg.batchMaxSize
        else st.currentBatchSize * 2) = min (st.currentBatchSize * 2) cfg.batchMaxSize := by
      split_ifs with hgt <;> omega
    rw [hm]
    split_ifs with hchg hne hne' <;> first | rfl | omega
  · intro cfg st hdiv
    simp only [adjustBatchSizeOnFailure]
    split_ifs with hlt hne hne' <;> simp <;> omega

/-- Witness for `adjustBatchSizePolicy`: a below-streak success keeps
the size, a failure halves it and floors at the minimum. -/
theorem adjustBatchSizePolicy_witness :
    adjustBatchSizeOnSuccess ⟨4, 1, 64, 3, 2⟩ ⟨4, 0, 5⟩ = ⟨4, 1, 0⟩ ∧
    (adjustBatchSizeOnFailure ⟨4, 1, 64, 3, 2⟩ ⟨8, 0, 0⟩).currentBatchSize = max (8 / 2) 1 :=
  ⟨adjustBatchSizePolicy.1 ⟨4, 1, 64, 3, 2⟩ ⟨4, 0, 5⟩ (by decide),
   adjustBatchSizePolicy.2.2.1 ⟨4, 1, 64, 3, 2⟩ ⟨8, 0, 0⟩ (by decide)⟩

/-- With no subscribers, one publish appends while the buffer is short
of `bufferSize` and otherwise leaves the stream unchanged; the client
set stays empty. -/
theorem publish_no_clients (s : EventStream) (h : s.clients = []) (t : Transfer) :
    publish s t =
      { s with buffer := if s.buffer.length < s.bufferSize then s.buffer ++ [t] else s.buffer } := by
  obtain ⟨cl, buf, n⟩ := s
  have h2 : cl = [] := h
  subst h2
  simp only [publish, List.isEmpty_nil, if_true]
  split_ifs <;> rfl

/-- Publishing a record list with no subscribers fills the buffer up to
capacity in publish order and drops the rest. -/
theorem publishAll_no_clients (ts : List Transfer) :
    ∀ s : EventStream, s.clients = [] →
      publishAll s ts =
        { s with buffer := s.buffer ++ ts.take (s.bufferSize - s.buffer.length) } := by
  induction ts with
  | nil => intro s h; simp [publishAll]
  | cons t ts ih =>
      intro s h
      have hstep : publishAll s (t :: ts) = publishAll (publish s t) ts := by
        simp [publishAll, List.foldl_cons]
      rw [hstep, publish_no_clients s h t]
      by_cases hlt : s.buffer.length < s.bufferSize
      · rw [if_pos hlt]
        rw [ih _ (by simp [h])]
        have harith : s.bufferSize - (s.buffer.length + 1) + 1 = s.bufferSize - s.buffer.length := by
          omega
        simp only [List.length_append, List.length_cons, List.length_nil]
        congr 1
        have htake : (t :: ts).take (s.bufferSize - s.buffer.length) =
            t :: ts.take (s.bufferSize - (s.buffer.length + 1)) := by
          have : s.bufferSize - s.buffer.length = (s.bufferSize - (s.buffer.length + 1)) + 1 := by
            omega
          rw [this, List.take_succ_cons]
        rw [htake]
        simp
      · rw [if_neg hlt]
        rw [ih _ (by simp [h])]
        have hz : s.bufferSize - s.buffer.length = 0 := by omega
        simp [hz]

/-- C2 (counterexample): buffer size 1, no subscribers, two records
published.  The code keeps the *oldest* buffered record and drops the
new one (`if len(s.buffer) < s.bufferSize` guards the append), so a
subscriber joining afterwards receives the first record, not the most
recent one as the claim requires. -/
theorem replayBufferDropsNewest :
    (subscribe (publishAll (newStream 1) [mkTransfer 1, mkTransfer 2])).fst = [mkTransfer 1] ∧
      mkTransfer 1 ≠ mkTransfer 2 := by
  constructor
  · rfl
  · intro hcontra
    have : (mkTransfer 1).value = (mkTransfer 2).value := by rw [hcontra]
    simp [mkTransfer] at this

/-- C2 (amended): for publishes with an empty subscriber set the record
is appended to the replay buffer while the buffer is below the
configured size, the buffer length never exceeds the size, and on
overflow the *newly published* record is dropped (the oldest records
are retained); a subscriber joining after `k` such publishes receives
the *first* `min(k, bufferSize)` records, in publish order. -/
theorem replayBufferPolicy (n : Nat) (ts : List Transfer) :
    (publishAll (newStream n) ts).buffer = ts.take n ∧
    (publishAll (newStream n) ts).buffer.length = min ts.length n ∧
    (publishAll (newStream n) ts).buffer.length ≤ n ∧
    (subscribe (publishAll (newStream n) ts)).fst = ts.take n := by
  have h := publishAll_no_clients ts (newStream n) rfl
  have hbuf : (publishAll (newStream n) ts).buffer = ts.take n := by
    rw [h]; simp [newStream]
  refine ⟨hbuf, ?_, ?_, ?_⟩
  · rw [hbuf]; simp [List.length_take, Nat.min_comm]
  · rw [hbuf]; simp [List.length_take]
  · simp [subscribe, hbuf]

/-- C10: with at least one subscribed client, `Publish` leaves the
replay buffer (and hence the replay a later subscriber receives)
unchanged; when moreover every subscribed client's channel is full the
whole stream state is unchanged, so the record is lost entirely and is
never replayed. -/
theorem publishFrameWithClients (s : EventStream) (t : Transfer) (h : s.clients ≠ []) :
    (publish s t).buffer = s.buffer ∧
    (publish s t).bufferSize = s.bufferSize ∧
    (subscribe (publish s t)).fst = (subscribe s).fst ∧
    ((∀ c ∈ s.clients, c.capacity ≤ c.queued.length) → publish s t = s) := by
  have hne : s.clients.isEmpty = false := by
    cases hc : s.clients with
    | nil => exact absurd hc h
    | cons a l => simp
  refine ⟨?_, ?_, ?_, ?_⟩
  · simp [publish, hne]
  · simp [publish, hne]
  · simp [subscribe, publish, hne]
  · intro hfull
    simp only [publish, hne, Bool.false_eq_true, if_false]
    have hgen : ∀ l : List ClientChan, (∀ c ∈ l, c.capacity ≤ c.queued.length) →
        l.map (fun c => sendNonBlocking c t) = l := by
      intro l
      induction l with
      | nil => intro _; rfl
      | cons a as ih =>
          intro hl
          have ha := hl a (List.mem_cons_self a as)
          have has : ∀ c ∈ as, c.capacity ≤ c.queued.length :=
            fun c hc => hl c (List.mem_cons_of_mem a hc)
          simp only [List.map_cons, ih has]
          simp [sendNonBlocking, Nat.not_lt.mpr ha]
    rw [hgen s.clients hfull]

/-- Witness for `publishFrameWithClients`: a stream with one subscribed
client whose channel is full. -/
theorem publishFrameWithClients_witness :
    (publish fullStream (mkTransfer 3)).buffer = fullStream.buffer ∧
    (publish fullStream (mkTransfer 3)).bufferSize = fullStream.bufferSize ∧
    (subscribe (publish fullStream (mkTransfer 3))).fst = (subscribe fullStream).fst ∧
    ((∀ c ∈ fullStream.clients, c.capacity ≤ c.queued.length) →
      publish fullStream (mkTransfer 3) = fullStream) :=
  publishFrameWithClients fullStream (mkTransfer 3) (by simp [fullStream])

/-- `RecordFailure` always increments the consecutive-failure counter
and preserves the configured thresholds; an unhealthy provider stays
unhealthy. -/
theorem recordFailure_basic (p : Provider) :
    (recordFailure p).failureCount = p.failureCount + 1 ∧
    (recordFailure p).failureThreshold = p.failureThreshold ∧
    (recordFailure p).successThreshold = p.successThreshold ∧
    (p.state = .unhealthy → (recordFailure p).state = .unhealthy) := by
  simp only [recordFailure]
  split_ifs with h1 h2 <;> simp_all

/-- The next state after `RecordFailure` from a healthy provider:
unhealthy exactly when the incremented streak reaches the threshold. -/
theorem recordFailure_healthy (p : Provider) (h : p.state = .healthy) :
    (recordFailure p).state =
      (if p.failureCount + 1 ≥ p.failureThreshold then .unhealthy else .healthy) := by
  simp only [recordFailure]
  split_ifs with h1 h2 <;> simp_all

/-- `RecordSuccess` preserves thresholds; a healthy provider stays
healthy; in half-open, the success streak increments and the state goes
healthy exactly when it reaches the threshold. -/
theorem recordSuccess_basic (p : Provider) :
    (recordSuccess p).successThreshold = p.successThreshold ∧
    (p.state = .healthy → (recordSuccess p).state = .healthy) ∧
    (p.state = .halfOpen →
      (recordSuccess p).state =
          (if p.successCount + 1 ≥ p.successThreshold then .healthy else .halfOpen) ∧
      (recordSuccess p).successCount =
          (if p.successCount + 1 ≥ p.successThreshold then 0 else p.successCount + 1)) := by
  simp only [recordSuccess]
  split_ifs with h1 h2 <;> simp_all

/-- Failure-streak invariant: after `k` consecutive failures a provider
that started healthy is either already unhealthy or still healthy with
its failure streak grown by `k` and strictly below the threshold
(thresholds unchanged). -/
theorem recordFailure_iterate_invariant (p : Provider) (h : p.state = .healthy) (k : Nat) :
    (recordFailure^[k] p).failureThreshold = p.failureThreshold ∧
    ((recordFailure^[k] p).state = .unhealthy ∨
      ((recordFailure^[k] p).state = .healthy ∧
       (recordFailure^[k] p).failureCount = p.failureCount + k ∧
       (k = 0 ∨ p.failureCount + k < p.failureThreshold))) := by
  induction k with
  | zero => simp [h]
  | succ k ih =>
      rw [Function.iterate_succ_apply']
      obtain ⟨ihthr, ihst⟩ := ih
      set q := recordFailure^[k] p with hq
      have hbasic := recordFailure_basic q
      rcases ihst with hu | ⟨hst, hfc, hbound⟩
      · exact ⟨by rw [hbasic.2.1, ihthr], Or.inl (hbasic.2.2.2 hu)⟩
      · refine ⟨by rw [hbasic.2.1, ihthr], ?_⟩
        have hnext := recordFailure_healthy q hst
        by_cases htrip : q.failureCount + 1 ≥ q.failureThreshold
        · exact Or.inl (by rw [hnext, if_pos htrip])
        · refine Or.inr ⟨by rw [hnext, if_neg htrip], ?_, ?_⟩
          · rw [hbasic.1, hfc]; omega
          · right
            rw [hfc, ihthr] at htrip
            omega

/-- Success-streak invariant in half-open: after `k` consecutive
successes the provider is either already healthy or still half-open
with its success streak grown by `k` and strictly below the
threshold. -/
theorem recordSuccess_iterate_invariant (p : Provider) (h : p.state = .halfOpen) (k : Nat) :
    (recordSuccess^[k] p).successThreshold = p.successThreshold ∧
    ((recordSuccess^[k] p).state = .healthy ∨
      ((recordSuccess^[k] p).state = .halfOpen ∧
       (recordSuccess^[k] p).successCount = p.successCount + k ∧
       (k = 0 ∨ p.successCount + k < p.successThreshold))) := by
  induction k with
  | zero => simp [h]
  | succ k ih =>
      rw [Function.iterate_succ_apply']
      obtain ⟨ihthr, ihst⟩ := ih
      set q := recordSuccess^[k] p with hq
      have hbasic := recordSuccess_basic q
      rcases ihst with hh | ⟨hst, hsc, hbound⟩
      · exact ⟨by rw [hbasic.1, ihthr], Or.inl (hbasic.2.1 hh)⟩
      · refine ⟨by rw [hbasic.1, ihthr], ?_⟩
        obtain ⟨hnext, hcount⟩ := hbasic.2.2 hst
        by_cases hreach : q.successCount + 1 ≥ q.successThreshold
        · exact Or.inl (by rw [hnext, if_pos hreach])
        · refine Or.inr ⟨by rw [hnext, if_neg hreach], ?_, ?_⟩
          · rw [hcount, if_neg hreach, hsc]; omega
          · right
            rw [hsc, ihthr] at hreach
            omega

/-- C3 (counterexample): a failure in the probing (half-open) state
moves the provider to unhealthy but *increments* the consecutive-failure
counter instead of resetting it (`RecordFailure` runs `p.failureCount++`
and only zeroes `halfOpenCalls`), so "resets the breaker counters" fails
for the failure counter of a probing provider that tripped with
`failureCount = 5`. -/
theorem probingFailureKeepsFailureCount :
    (recordFailure probeProvider).state = .unhealthy ∧
    (recordFailure probeProvider).failureCount = 6 ∧
    ¬ (recordFailure probeProvider).failureCount = 0 := by
  decide

/-- C3 (amended): from Healthy, `failureThreshold ≥ 1` consecutive
`RecordFailure` calls reach Unhealthy; from Probing (half-open),
`successThreshold ≥ 1` consecutive `RecordSuccess` calls reach Healthy;
a single `RecordFailure` while Probing moves the provider back to
Unhealthy and resets the consecutive-success and half-open-call
counters to zero, while the consecutive-failure counter is incremented
rather than reset. -/
theorem circuitBreakerTransitions :
    (∀ p : Provider, p.state = .healthy → 1 ≤ p.failureThreshold →
        (recordFailure^[p.failureThreshold] p).state = .unhealthy) ∧
    (∀ p : Provider, p.state = .halfOpen → 1 ≤ p.successThreshold →
        (recordSuccess^[p.successThreshold] p).state = .healthy) ∧
    (∀ p : Provider, p.state = .halfOpen →
        (recordFailure p).state = .unhealthy ∧
        (recordFailure p).successCount = 0 ∧
        (recordFailure p).halfOpenCalls = 0 ∧
        (recordFailure p).failureCount = p.failureCount + 1) := by
  refine ⟨?_, ?_, ?_⟩
  · intro p hst hthr
    have hinv := recordFailure_iterate_invariant p hst p.failureThreshold
    rcases hinv.2 with hu | ⟨_, _, hbound⟩
    · exact hu
    · rcases hbound with hzero | hlt <;> omega
  · intro p hst hthr
    have hinv := recordSuccess_iterate_invariant p hst p.successThreshold
    rcases hinv.2 with hh | ⟨_, _, hbound⟩
    · exact hh
    · rcases hbound with hzero | hlt <;> omega
  · intro p hst
    simp only [recordFailure]
    split_ifs with h1 h2 <;> simp_all

/-- Witness for `circuitBreakerTransitions`: the provider `providerA`
(threshold 3/2) trips after 3 failures; `probeProvider` heals after 2
successes; a probing failure goes unhealthy with the success and
half-open counters cleared. -/
theorem circuitBreakerTransitions_witness :
    (recordFailure^[3] providerA).state = .unhealthy ∧
    (recordSuccess^[2] probeProvider).state = .healthy ∧
    ((recordFailure probeProvider).state = .unhealthy ∧
      (recordFailure probeProvider).successCount = 0 ∧
      (recordFailure probeProvider).halfOpenCalls = 0 ∧
      (recordFailure probeProvider).failureCount = probeProvider.failureCount + 1) :=
  ⟨circuitBreakerTransitions.1 providerA rfl (by decide),
   circuitBreakerTransitions.2.1 probeProvider rfl (by decide),
   circuitBreakerTransitions.2.2 probeProvider rfl⟩

/-- Range invariant of the failover loop: providers whose `MaxRange` is
below the requested span are skipped before their RPC client is
invoked, so every invoked provider — and in particular the one that
served a successful result — satisfies the span bound. -/
theorem filterLogsAux_range (rpc : Nat → Option (List Nat)) (blockRange nP : Nat)
    (cancelled : Bool) :
    ∀ (fuel attempt : Nat) (pool : ProviderPool) (att : List String)
      (inv : List (Nat × Provider)),
      (∀ x ∈ inv, blockRange ≤ x.2.maxRange) →
      (∀ x ∈ (filterLogsAux rpc blockRange nP cancelled fuel attempt pool att inv).invoked,
          blockRange ≤ x.2.maxRange) ∧
      (∀ logs i p,
          (filterLogsAux rpc blockRange nP cancelled fuel attempt pool att inv).result
            = .ok (logs, i, p) →
          blockRange ≤ p.maxRange ∧
          (i, p) ∈ (filterLogsAux rpc blockRange nP cancelled fuel attempt pool att inv).invoked) := by
  intro fuel
  induction fuel with
  | zero =>
      intro attempt pool att inv hinv
      refine ⟨hinv, ?_⟩
      intro logs i p hok
      simp [filterLogsAux] at hok
  | succ fuel ih =>
      intro attempt pool att inv hinv
      rcases hsp : selectProvider pool with ⟨pool1, sel⟩
      cases sel with
      | noneAvailable =>
          constructor
          · simpa [filterLogsAux, hsp] using hinv
          · intro logs i p hok
            simp [filterLogsAux, hsp] at hok
      | lastResort j q =>
          constructor
          · simpa [filterLogsAux, hsp] using hinv
          · intro logs i p hok
            simp [filterLogsAux, hsp] at hok
      | ok j q =>
          by_cases hrange : blockRange > q.maxRange
          · have heq : filterLogsAux rpc blockRange nP cancelled (fuel + 1) attempt pool att inv
                = filterLogsAux rpc blockRange nP cancelled fuel (attempt + 1) pool1
                    (att ++ [q.name]) inv := by
              simp [filterLogsAux, hsp, hrange]
            rw [heq]
            exact ih (attempt + 1) pool1 (att ++ [q.name]) inv hinv
          · have hqle : blockRange ≤ q.maxRange := Nat.not_lt.mp hrange
            by_cases hskip : (att.contains q.name && decide (attempt < nP)) = true
            · have heq : filterLogsAux rpc blockRange nP cancelled (fuel + 1) attempt pool att inv
                  = filterLogsAux rpc blockRange nP cancelled fuel (attempt + 1) pool1 att inv := by
                simp only [filterLogsAux, hsp]
                rw [if_neg hrange, if_pos hskip]
              rw [heq]
              exact ih (attempt + 1) pool1 att inv hinv
            · have hinv2 : ∀ x ∈ inv ++ [(j, q)], blockRange ≤ x.2.maxRange := by
                intro x hx
                rcases List.mem_append.mp hx with hx1 | hx2
                · exact hinv x hx1
                · rw [List.mem_singleton.mp hx2]
                  exact hqle
              cases hrpc : rpc j with
              | some logs =>
                  have heq : filterLogsAux rpc blockRange nP cancelled (fuel + 1) attempt pool att inv
                      = ⟨.ok (logs, j, q),
                         { pool1 with providers := pool1.providers.set j (recordSuccess q) },
                         inv ++ [(j, q)]⟩ := by
                    simp only [filterLogsAux, hsp]
                    rw [if_neg hrange, if_neg hskip]
                    simp only [hrpc]
                  rw [heq]
                  refine ⟨hinv2, ?_⟩
                  intro logs' i p hok
                  simp only [Except.ok.injEq, Prod.mk.injEq] at hok
                  obtain ⟨-, hi, hp⟩ := hok
                  subst hi; subst hp
                  exact ⟨hqle, List.mem_append.mpr (Or.inr (List.mem_singleton.mpr rfl))⟩
              | none =>
                  by_cases hc : cancelled = true
                  · have heq : filterLogsAux rpc blockRange nP cancelled (fuel + 1) attempt pool att inv
                        = ⟨.error .cancelled,
                           { pool1 with providers := pool1.providers.set j (recordFailure q) },
                           inv ++ [(j, q)]⟩ := by
                      simp only [filterLogsAux, hsp]
                      rw [if_neg hrange, if_neg hskip]
                      simp only [hrpc]
                      rw [if_pos hc]
                    rw [heq]
                    refine ⟨hinv2, ?_⟩
                    intro logs' i p hok
                    simp at hok
                  · have heq : filterLogsAux rpc blockRange nP cancelled (fuel + 1) attempt pool att inv
                        = filterLogsAux rpc blockRange nP cancelled fuel (attempt + 1)
                            { pool1 with providers := pool1.providers.set j (recordFailure q) }
                            (att ++ [q.name]) (inv ++ [(j, q)]) := by
                      simp only [filterLogsAux, hsp]
                      rw [if_neg hrange, if_neg hskip]
                      simp only [hrpc]
                      rw [if_neg hc]
                    rw [heq]
                    exact ih (attempt + 1) _ (att ++ [q.name]) (inv ++ [(j, q)]) hinv2

/-- C4: for every pool `FilterLogs` call, a provider whose `MaxRange`
is smaller than the requested span `toBlock - fromBlock + 1` is never
invoked, and whenever the call returns logs successfully the provider
that served them has `MaxRange ≥` the span. -/
theorem poolRangeRestriction (rpc : Nat → Option (List Nat)) (cancelled : Bool)
    (pool : ProviderPool) (fromBlock toBlock : Nat) :
    (∀ x ∈ (poolFilterLogs rpc cancelled pool fromBlock toBlock).invoked,
        blockSpan fromBlock toBlock ≤ x.2.maxRange) ∧
    (∀ logs i p,
        (poolFilterLogs rpc cancelled pool fromBlock toBlock).result = .ok (logs, i, p) →
        blockSpan fromBlock toBlock ≤ p.maxRange) := by
  have h := filterLogsAux_range rpc (blockSpan fromBlock toBlock) pool.providers.length
    cancelled (2 * pool.providers.length) 0 pool [] [] (by intro x hx; simp at hx)
  exact ⟨h.1, fun logs i p hok => (h.2 logs i p hok).1⟩

/-- Witness for `poolRangeRestriction`: a single healthy provider with
`MaxRange 1000` serves the logs of the 10-block span `[1, 10]`. -/
theorem poolRangeRestriction_witness :
    blockSpan 1 10 ≤ providerA.maxRange ∧
      (0, providerA) ∈ (poolFilterLogs rpcOK false poolA 1 10).invoked :=
  ⟨(poolRangeRestriction rpcOK false poolA 1 10).2 [7] 0 providerA rfl,
   (filterLogsAux_range rpcOK (blockSpan 1 10) poolA.providers.length false
      (2 * poolA.providers.length) 0 poolA [] [] (by intro x hx; simp at hx)).2
      [7] 0 providerA rfl |>.2⟩

/-- C5: when no provider in the pool is selectable, `SelectProvider`
does return the highest-weight provider as a last resort — but together
with a non-nil error, and every pool operation checks `err != nil`
first and returns the failure *without invoking any provider*.  With
the single unhealthy provider `providerU` (whose RPC call would
succeed), `FilterLogs` returns the "no healthy providers available"
failure and the invocation trace is empty. -/
theorem lastResortNotInvoked :
    (selectProvider poolU).snd = Selected.lastResort 0 providerU ∧
    (poolFilterLogs rpcOK false poolU 1 10).result = .error .noHealthy ∧
    (poolFilterLogs rpcOK false poolU 1 10).invoked = [] ∧
    rpcOK 0 = some [7] :=
  ⟨rfl, rfl, rfl, rfl⟩

/-- C1: the write-through invariant fails.  A `SetLastProcessedBlock 5`
that succeeds while the Redis server is unreachable leaves MongoDB
holding 5 and the cache key unset; once Redis is reachable again with
the `ethereum:last_block` key absent, `RedisCache.GetLastProcessedBlock`
masks `redis.Nil` as a successful `(0, nil)`, the repository treats it
as a cache hit and returns 0 < 5 without ever consulting MongoDB —
contradicting the repository's own "Cache miss or error - fall through
to MongoDB" comment.  A reachable cache holding a stale smaller value
(3) is likewise returned as-is. -/
theorem cursorReadAfterWriteViolation :
    repoSetLastProcessedBlock (.down none) [] 5 = (.down none, [5]) ∧
    repoGetLastProcessedBlock (.up none) [5] = 0 ∧
    repoGetLastProcessedBlock (.up (some 3)) [5] = 3 ∧
    mongoMaxBlock [5] = 5 := by
  decide

/-- The collection after a bulk write extends the collection before
it. -/
theorem bulkWriteUnordered_grows (failOracle : Transfer → Bool) :
    ∀ (ts db : List Transfer),
      ∃ extra, (bulkWriteUnordered failOracle db ts).fst = db ++ extra := by
  intro ts
  induction ts with
  | nil => intro db; exact ⟨[], by simp [bulkWriteUnordered]⟩
  | cons r rs ih =>
      intro db
      simp only [bulkWriteUnordered]
      split_ifs with hdup hfail
      · exact ih db
      · exact ih db
      · obtain ⟨extra, hx⟩ := ih (db ++ [r])
        exact ⟨r :: extra, by simp [hx]⟩

/-- When the per-record environment produces no non-duplicate write
errors, no `otherErr` outcome occurs. -/
theorem bulkWriteUnordered_no_otherErr (failOracle : Transfer → Bool) :
    ∀ (ts db : List Transfer), (∀ r ∈ ts, failOracle r = false) →
      ∀ o ∈ (bulkWriteUnordered failOracle db ts).snd, o ≠ .otherErr := by
  intro ts
  induction ts with
  | nil => intro db h o ho; simp [bulkWriteUnordered] at ho
  | cons r rs ih =>
      intro db h o ho
      have hr : failOracle r = false := h r (List.mem_cons_self r rs)
      have hrs : ∀ x ∈ rs, failOracle x = false :=
        fun x hx => h x (List.mem_cons_of_mem r hx)
      simp only [bulkWriteUnordered] at ho
      split_ifs at ho with hdup hfail
      · rcases List.mem_cons.mp ho with h1 | h2
        · subst h1; intro hc; cases hc
        · exact ih db hrs o h2
      · rw [hr] at hfail; cases hfail
      · rcases List.mem_cons.mp ho with h1 | h2
        · subst h1; intro hc; cases hc
        · exact ih (db ++ [r]) hrs o h2

/-- Every record offered to a bulk write whose insertion did not hit a
non-duplicate error ends up (by key) in the resulting collection. -/
theorem bulkWriteUnordered_keys (failOracle : Transfer → Bool) :
    ∀ (ts db : List Transfer), (∀ r ∈ ts, failOracle r = false) →
      ∀ r ∈ ts, transferKey r ∈ (bulkWriteUnordered failOracle db ts).fst.map transferKey := by
  intro ts
  induction ts with
  | nil => intro db h r hr; simp at hr
  | cons a rs ih =>
      intro db h r hr
      have ha : failOracle a = false := h a (List.mem_cons_self a rs)
      have hrs : ∀ x ∈ rs, failOracle x = false :=
        fun x hx => h x (List.mem_cons_of_mem a hx)
      simp only [bulkWriteUnordered]
      split_ifs with hdup hfail
      · rcases List.mem_cons.mp hr with h1 | h2
        · have hmem : transferKey a ∈ db.map transferKey := List.elem_iff.mp hdup
          obtain ⟨extra, hx⟩ := bulkWriteUnordered_grows failOracle rs db
          simp only [hx, List.map_append, List.mem_append]
          exact Or.inl (by rw [h1]; exact hmem)
        · exact ih db hrs r h2
      · rw [ha] at hfail; cases hfail
      · rcases List.mem_cons.mp hr with h1 | h2
        · obtain ⟨extra, hx⟩ := bulkWriteUnordered_grows failOracle rs (db ++ [a])
          simp only [hx, List.map_append, List.mem_append, List.map_cons, List.mem_cons]
          subst h1
          simp
        · exact ih (db ++ [a]) hrs r h2

/-- Re-offering records whose keys are all already present yields only
duplicate-key outcomes and leaves the collection unchanged. -/
theorem bulkWriteUnordered_idempotent (failOracle : Transfer → Bool) :
    ∀ (ts db : List Transfer), (∀ r ∈ ts, transferKey r ∈ db.map transferKey) →
      bulkWriteUnordered failOracle db ts = (db, ts.map fun _ => WriteOutcome.dupKey) := by
  intro ts
  induction ts with
  | nil => intro db h; simp [bulkWriteUnordered]
  | cons a rs ih =>
      intro db h
      have ha : (db.map transferKey).contains (transferKey a) = true :=
        List.elem_iff.mpr (h a (List.mem_cons_self a rs))
      simp only [bulkWriteUnordered, if_pos ha]
      rw [ih db (fun r hr => h r (List.mem_cons_of_mem a hr))]
      simp

/-- `InsertTransfers` persists exactly what the bulk write persists. -/
theorem insertTransfers_fst (failOracle : Transfer → Bool) (db ts : List Transfer) :
    (insertTransfers failOracle db ts).fst = (bulkWriteUnordered failOracle db ts).fst := by
  cases ts with
  | nil => simp [insertTransfers, bulkWriteUnordered]
  | cons a rs =>
      simp only [insertTransfers, List.isEmpty_cons, Bool.false_eq_true, if_false]
      split_ifs <;> rfl

/-- C9 (counterexample): a batch mixing a duplicate of an
already-persisted record with a fresh record whose insert fails with a
non-duplicate write error.  The unordered bulk write reports one
duplicate-key and one other write error; `mongo.IsDuplicateKeyError`
holds for the whole `BulkWriteException` as soon as any contained error
is duplicate-key, so `InsertTransfers` returns nil — the other write
error is silently absorbed, refuting the claim's "any other write error
is propagated", and the failed record is not persisted. -/
theorem mixedBatchErrorAbsorbed :
    (bulkWriteUnordered failOnBlock2 [mkTransfer 1] [mkTransfer 1, mkTransfer 2]).snd
      = [WriteOutcome.dupKey, WriteOutcome.otherErr] ∧
    (insertTransfers failOnBlock2 [mkTransfer 1] [mkTransfer 1, mkTransfer 2]).snd = true ∧
    ¬ transferKey (mkTransfer 2) ∈
        ((insertTransfers failOnBlock2 [mkTransfer 1] [mkTransfer 1, mkTransfer 2]).fst.map
          transferKey) := by
  decide

/-- C9 (amended): when the unordered bulk write fails only with
duplicate-key errors on the unique `(tx_hash, log_index)` index,
`InsertTransfers` returns no error and the non-duplicate records of the
batch are persisted; a bulk failure containing *no* duplicate-key error
propagates; but a bulk failure containing at least one duplicate-key
error is always absorbed (the call succeeds), even when the batch also
suffered non-duplicate write errors — those are then silently swallowed
with their records unpersisted; re-offering an already-persisted batch
leaves the collection unchanged and succeeds (idempotence). -/
theorem insertTransfersContract (failOracle : Transfer → Bool) (db ts : List Transfer) :
    ((∀ o ∈ (bulkWriteUnordered failOracle db ts).snd, o ≠ WriteOutcome.otherErr) →
        (insertTransfers failOracle db ts).snd = true) ∧
    ((∀ r ∈ ts, failOracle r = false) →
        (insertTransfers failOracle db ts).snd = true ∧
        ∀ r ∈ ts, transferKey r ∈ (insertTransfers failOracle db ts).fst.map transferKey) ∧
    ((bulkWriteUnordered failOracle db ts).snd.any WriteOutcome.isDup = false →
        (bulkWriteUnordered failOracle db ts).snd.any WriteOutcome.isErr = true →
        (insertTransfers failOracle db ts).snd = false) ∧
    ((∀ r ∈ ts, transferKey r ∈ db.map transferKey) →
        insertTransfers failOracle db ts = (db, true)) ∧
    ((bulkWriteUnordered failOracle db ts).snd.any WriteOutcome.isDup = true →
        (insertTransfers failOracle db ts).snd = true) := by
  have habsorb : (∀ o ∈ (bulkWriteUnordered failOracle db ts).snd, o ≠ WriteOutcome.otherErr) →
      (insertTransfers failOracle db ts).snd = true := by
    intro h
    by_cases he : ts.isEmpty
    · simp [insertTransfers, he]
    · simp only [insertTransfers, he, Bool.false_eq_true, if_false]
      by_cases herr : (bulkWriteUnordered failOracle db ts).snd.any WriteOutcome.isErr = true
      · rw [if_pos herr]
        obtain ⟨o, ho, hoe⟩ := List.any_eq_true.mp herr
        have hdup : o = WriteOutcome.dupKey := by
          cases o with
          | inserted => cases hoe
          | dupKey => rfl
          | otherErr => exact absurd rfl (h _ ho)
        rw [if_pos (List.any_eq_true.mpr ⟨o, ho, by rw [hdup]; rfl⟩)]
      · rw [if_neg herr]
  refine ⟨habsorb, ?_, ?_, ?_, ?_⟩
  · intro h
    refine ⟨habsorb (bulkWriteUnordered_no_otherErr failOracle ts db h), ?_⟩
    intro r hr
    rw [insertTransfers_fst]
    exact bulkWriteUnordered_keys failOracle ts db h r hr
  · intro hdup herr
    cases hts : ts with
    | nil => rw [hts] at herr; simp [bulkWriteUnordered] at herr
    | cons a rs =>
        subst hts
        simp only [insertTransfers, List.isEmpty_cons, Bool.false_eq_true, if_false]
        rw [if_pos herr, if_neg (by rw [hdup]; simp)]
  · intro h
    have hbw := bulkWriteUnordered_idempotent failOracle ts db h
    cases hts : ts with
    | nil => simp [insertTransfers]
    | cons a rs =>
        subst hts
        simp only [insertTransfers, List.isEmpty_cons, Bool.false_eq_true, if_false, hbw]
        have herr : ((a :: rs).map fun _ => WriteOutcome.dupKey).any WriteOutcome.isErr = true := by
          simp [WriteOutcome.isErr]
        have hdup2 : ((a :: rs).map fun _ => WriteOutcome.dupKey).any WriteOutcome.isDup = true := by
          simp [WriteOutcome.isDup]
        rw [if_pos herr, if_pos hdup2]
  · intro hdup
    have hne : ts.isEmpty = false := by
      cases ts with
      | nil => simp [bulkWriteUnordered] at hdup
      | cons a rs => rfl
    simp only [insertTransfers, hne, Bool.false_eq_true, if_false]
    by_cases herr : (bulkWriteUnordered failOracle db ts).snd.any WriteOutcome.isErr = true
    · rw [if_pos herr, if_pos hdup]
    · rw [if_neg herr]

/-- Witness for `insertTransfersContract`: a batch containing one
already-persisted record and one fresh record is absorbed — the call
succeeds and both keys are afterwards present. -/
theorem insertTransfersContract_witness :
    (insertTransfers (fun _ => false) [mkTransfer 1] [mkTransfer 1, mkTransfer 2]).snd = true ∧
    ∀ r ∈ [mkTransfer 1, mkTransfer 2],
      transferKey r ∈
        (insertTransfers (fun _ => false) [mkTransfer 1] [mkTransfer 1, mkTransfer 2]).fst.map
          transferKey :=
  (insertTransfersContract (fun _ => false) [mkTransfer 1] [mkTransfer 1, mkTransfer 2]).2.1
    (by intro r hr; rfl)
